import Mathlib

/-!
Verification of the report aggregator in `src/test/generate-report.py`
(arm64-python-wheel-tester).

The Python code is shallowly embedded: JSON values become `PyVal`, Python
dicts become insertion-ordered association lists (CPython dicts iterate in
insertion order, and assignment to an existing key keeps its position),
`datetime` values become seconds since the Unix epoch (`Int`), and code that
can raise returns `Except PyErr`.  Function names follow the source where
Lean allows it.
-/

namespace WheelTester

/-- A Python/JSON scalar value as it appears in a result file. -/
inductive PyVal where
  | none : PyVal
  | bool : Bool → PyVal
  | int : Int → PyVal
  | str : String → PyVal
  deriving DecidableEq, Repr

/-- Python exception classes that the embedded code can raise. -/
inductive PyErr where
  | valueError : PyErr
  | typeError : PyErr
  | attributeError : PyErr
  | jsonDecodeError : PyErr
  deriving DecidableEq, Repr

/-- Python truthiness of a `PyVal` (`if passed:` in the source). -/
def pvTruthy : PyVal → Bool
  | .none => false
  | .bool b => b
  | .int n => n ≠ 0
  | .str s => s ≠ ""

/-- One per-test outcome dict, e.g. `{"test-passed": true, ...}`. -/
abbrev Outcome := List (String × PyVal)

/-- A wheel's dict from test name to outcome. -/
abbrev WheelDict := List (String × Outcome)

/-- A result file's content: wheel name → test name → outcome. -/
abbrev Content := List (String × WheelDict)

/-- Dict assignment `d[k] = v`: update in place if the key exists
(keeping its position, as CPython does), else append. -/
def dictSet : List (String × PyVal) → String → PyVal → List (String × PyVal)
  | [], k, v => [(k, v)]
  | (k', v') :: rest, k, v =>
    if k' == k then (k', v) :: rest else (k', v') :: dictSet rest k v

/-- `needle` is a prefix of `hay` (on character lists). -/
def subAt : List Char → List Char → Bool
  | [], _ => true
  | _ :: _, [] => false
  | a :: as, b :: bs => a == b && subAt as bs

/-- `needle` occurs somewhere in `hay` (on character lists). -/
def hasSub (needle : List Char) : List Char → Bool
  | [] => needle.isEmpty
  | c :: cs => subAt needle (c :: cs) || hasSub needle cs

/-- Python's `needle in hay` substring test. -/
def strIn (needle hay : String) : Bool := hasSub needle.data hay.data

/-- The fixed ordered distribution list from `get_distribution_name`. -/
def distros : List String := ["amazon-linux2", "centos8", "focal", "jammy", "noble"]

/-- `get_distribution_name`: first distro that is a substring of the test
name, else `None` (lines 180-185 of generate-report.py). -/
def get_distribution_name (test_name : String) : Option String :=
  distros.find? (fun d => strIn d test_name)

/-- `get_package_manager_name`: first of yum/apt/conda found as a substring,
else `"pip"` (lines 187-192). -/
def get_package_manager_name (test_name : String) : String :=
  (((["yum", "apt", "conda"] : List String)).find? (fun n => strIn n test_name)).getD "pip"

/-- `defaultdict(lambda: False)` update `m[k] |= b`: OR into an existing
entry, else insert `(k, b)` (the default `False` or-ed with `b`). -/
def dsetOr : List (Option String × Bool) → Option String → Bool → List (Option String × Bool)
  | [], k, b => [(k, b)]
  | (k', v) :: rest, k, b =>
    if k' == k then (k', v || b) :: rest else (k', v) :: dsetOr rest k b

/-- Lookup of the `'test-passed'` field of an outcome dict. -/
def testPassedVal (o : Outcome) : Option PyVal := o.lookup "test-passed"

/-- The `passed_by_distro` fold of `add_inferred_meta_data` (lines 204-211):
for each test of a wheel, OR its `test-passed` into the entry of its
inferred distribution.  A missing `'test-passed'` key would raise KeyError
in the source; the loaded input format always contains it, and the fold
treats it as absent/false. -/
def passedByDistro (wd : WheelDict) : List (Option String × Bool) :=
  wd.foldl
    (fun acc p =>
      dsetOr acc (get_distribution_name p.1) (pvTruthy ((testPassedVal p.2).getD PyVal.none)))
    []

/-- The flag computed at line 213:
`len(list(filter(lambda x: not x, passed_by_distro.values()))) == 0`. -/
def eachDistributionHasPassingOption (wd : WheelDict) : Bool :=
  ((passedByDistro wd).filter (fun p => !p.2)).length == 0

/-- Lines 209-210: metadata inference writes the two inferred keys into the
parsed per-test outcome dict (`test_name_results['distribution'] = ...`). -/
def addMetaToOutcome (test_name : String) (o : Outcome) : Outcome :=
  dictSet
    (dictSet o "distribution"
      (match get_distribution_name test_name with
       | some d => PyVal.str d
       | none => PyVal.none))
    "package_manager" (PyVal.str (get_package_manager_name test_name))

/-- The mutation `add_inferred_meta_data` performs on `self.content`:
every outcome dict gains the `distribution` and `package_manager` keys. -/
def addInferredContent (c : Content) : Content :=
  c.map (fun w => (w.1, w.2.map (fun t => (t.1, addMetaToOutcome t.1 t.2))))

/-- The per-wheel `each-distribution-has-passing-option` flags stored in
`self.wheels` (line 213), keyed by wheel in content order. -/
def wheelFlagsOf (c : Content) : List (String × Bool) :=
  c.map (fun w => (w.1, eachDistributionHasPassingOption w.2))

/-! ## Dates

Python `datetime` values are embedded as seconds since 1970-01-01 00:00:00
(`Int`).  The epoch day is a Thursday, so `weekday()` (Monday = 0) of the
day `D` is `(D + 3) % 7`.  Lean's `Int` `/` and `%` are Euclidean division,
which for the positive divisors used here coincides with Python's floor
division and nonnegative remainder. -/

/-- The calendar day of a timestamp. -/
def dtDay (t : Int) : Int := t / 86400

/-- `datetime.weekday()`: Monday = 0 ... Sunday = 6. -/
def dtWeekday (t : Int) : Int := (dtDay t + 3) % 7

/-- `date.replace(hour=23, minute=59)` — the second (and in the source the
microsecond, always zero here) of the original timestamp is kept. -/
def dtReplace2359 (t : Int) : Int := dtDay t * 86400 + 86340 + t % 60

/-- Days since 1970-01-01 of the civil date `(y, m, d)` (proleptic
Gregorian, as Python's `datetime` uses). -/
def daysFromCivil (y m d : Int) : Int :=
  let y' := if m ≤ 2 then y - 1 else y
  let era := y' / 400
  let yoe := y' - era * 400
  let mp := (m + 9) % 12
  let doy := (153 * mp + 2) / 5 + d - 1
  let doe := yoe * 365 + yoe / 4 - yoe / 100 + doy
  era * 146097 + doe - 719468

/-- Civil date `(y, m, d)` of a day count since 1970-01-01. -/
def civilFromDays (z0 : Int) : Int × Int × Int :=
  let z := z0 + 719468
  let era := z / 146097
  let doe := z - era * 146097
  let yoe := (doe - doe / 1460 + doe / 36524 - doe / 146096) / 365
  let y := yoe + era * 400
  let doy := doe - (365 * yoe + yoe / 4 - yoe / 100)
  let mp := (5 * doy + 2) / 153
  let d := doy - (153 * mp + 2) / 5 + 1
  let m := mp + (if mp < 10 then 3 else -9)
  (if m ≤ 2 then y + 1 else y, m, d)

/-- Days in a month of the proleptic Gregorian calendar. -/
def daysInMonth (y m : Int) : Int :=
  if m = 2 then
    if y % 4 = 0 ∧ (y % 100 ≠ 0 ∨ y % 400 = 0) then 29 else 28
  else if m = 4 ∨ m = 6 ∨ m = 9 ∨ m = 11 then 30
  else 31

/-- Split a character list on a separator character. -/
def splitOnChar (sep : Char) : List Char → List (List Char)
  | [] => [[]]
  | c :: cs =>
    if c = sep then [] :: splitOnChar sep cs
    else
      match splitOnChar sep cs with
      | [] => [[c]]
      | g :: gs => (c :: g) :: gs

/-- Parse a nonempty run of decimal digits. -/
def digitsToNat : List Char → Option Nat := fun cs =>
  if cs ≠ [] ∧ cs.all Char.isDigit then
    some (cs.foldl (fun acc c => acc * 10 + (c.toNat - 48)) 0)
  else none

/-- `datetime.strptime(group, "%Y-%m-%d_%H-%M-%S")`, returning `none` where
Python raises `ValueError`.  The six fields must be decimal numbers in the
ranges the `datetime` constructor accepts.  (The matched group only
contains `[0-9\-_]`, so format-directed matching and splitting agree.) -/
def strptimeTs (g : List Char) : Option Int :=
  match splitOnChar '_' g with
  | [datePart, timePart] =>
    match splitOnChar '-' datePart, splitOnChar '-' timePart with
    | [ys, ms, ds], [hs, mins, ss] =>
      match digitsToNat ys, digitsToNat ms, digitsToNat ds,
            digitsToNat hs, digitsToNat mins, digitsToNat ss with
      | some y, some m, some d, some h, some mi, some sec =>
        if 1 ≤ y ∧ y ≤ 9999 ∧ 1 ≤ m ∧ m ≤ 12 ∧ 1 ≤ d ∧
           (d : Int) ≤ daysInMonth (y : Int) (m : Int) ∧
           h < 24 ∧ mi < 60 ∧ sec < 60 then
          some (daysFromCivil y m d * 86400 + h * 3600 + mi * 60 + sec)
        else none
      | _, _, _, _, _, _ => none
    | _, _ => none
  | _ => none

/-- A character of the regex class `[0-9\-_]`. -/
def tsClassChar (c : Char) : Bool := c.isDigit || c == '-' || c == '_'

/-- Attempt of the regex `[^/]-([0-9\-_]+)\.json(?:\.xz)?$` anchored at the
head of the character list: one char other than `/`, a literal `-`, then
the greedy group followed exactly by `.json` or `.json.xz` at end of
string.  (Backtracking cannot shorten the greedy group: every character it
gives back is in `[0-9\-_]`, which can never match the `\.` that follows.) -/
def tsMatchHere : List Char → Option (List Char)
  | c :: '-' :: rest =>
    if c = '/' then none
    else
      let grp := rest.takeWhile tsClassChar
      let tail := rest.dropWhile tsClassChar
      if grp ≠ [] ∧ (tail = ".json".data ∨ tail = ".json.xz".data) then some grp
      else none
  | _ => none

/-- `re.search` of the timestamp pattern: leftmost match. -/
def tsSearch : List Char → Option (List Char)
  | [] => none
  | c :: cs =>
    match tsMatchHere (c :: cs) with
    | some g => some g
    | none => tsSearch cs

/-- Lines 245-247: extract the timestamp group from the file name and parse
it; `none` when the regex does not match (the source then leaves
`self.date = None` and raises nothing). -/
def searchTs (fname : String) : Option (List Char) := tsSearch fname.data

/-! ## Date formatting (`strftime`) -/

def weekdayNames : List String :=
  ["Monday", "Tuesday", "Wednesday", "Thursday", "Friday", "Saturday", "Sunday"]

def monthNames : List String :=
  ["January", "February", "March", "April", "May", "June", "July",
   "August", "September", "October", "November", "December"]

/-- `%d`: zero-padded day of month. -/
def pad2 (n : Int) : String :=
  if n < 10 then "0" ++ toString n else toString n

/-- `strftime("%A, %B %d, %Y")`, used for the summary date cell. -/
def strftimeFull (t : Int) : String :=
  let c := civilFromDays (dtDay t)
  ((weekdayNames.get? (dtWeekday t).toNat).getD "") ++ ", " ++
    ((monthNames.get? (c.2.1 - 1).toNat).getD "") ++ " " ++ pad2 c.2.2 ++ ", " ++
    toString c.1

/-! ## Loading result files (`print_table_by_distro_report`, lines 233-252) -/

/-- The in-memory `TestResultFile` after `add_inferred_meta_data`:
`content` already carries the inferred keys, `date` is `none` when the file
name regex did not match, and `wheelFlags` holds each wheel's
`each-distribution-has-passing-option` flag from `self.wheels`. -/
structure TestResultFile where
  fname : String
  content : Content
  date : Option Int
  wheelFlags : List (String × Bool)
  deriving DecidableEq, Repr

/-- Loading one file (lines 236-249): parse the timestamp out of the file
name — no regex match leaves `date = None` silently, while a matching group
that `strptime` rejects raises `ValueError` — then run
`add_inferred_meta_data`. -/
def loadOne (p : String × Content) : Except PyErr TestResultFile :=
  match searchTs p.1 with
  | none =>
    .ok { fname := p.1, content := addInferredContent p.2, date := none,
          wheelFlags := wheelFlagsOf p.2 }
  | some g =>
    match strptimeTs g with
    | none => .error .valueError
    | some t =>
      .ok { fname := p.1, content := addInferredContent p.2, date := some t,
            wheelFlags := wheelFlagsOf p.2 }

/-- The load loop: each file is appended to `test_results_list`; the first
raising load aborts the whole batch. -/
def loadFiles : List (String × Content) → Except PyErr (List TestResultFile)
  | [] => .ok []
  | p :: ps =>
    match loadOne p, loadFiles ps with
    | .ok tf, .ok rest => .ok (tf :: rest)
    | .error e, _ => .error e
    | .ok _, .error e => .error e

/-! ## Stable sorting

CPython's `sorted` is stable, and `reverse=True` keeps elements with equal
keys in their original order.  Any stable sort computes the same list, so
we embed it as a stable insertion sort; descending order is ascending order
on the negated integer key. -/

/-- Stable insert: the new element (earlier in the input) goes before the
first element with a key not smaller than its own. -/
def pyInsert {α K : Type} [LinearOrder K] (key : α → K) (x : α) : List α → List α
  | [] => [x]
  | y :: ys => if key x ≤ key y then x :: y :: ys else y :: pyInsert key x ys

/-- Stable ascending insertion sort by `key`. -/
def pySortBy {α K : Type} [LinearOrder K] (key : α → K) : List α → List α
  | [] => []
  | x :: xs => pyInsert key x (pySortBy key xs)

/-- The sort key of line 252 is `x.date`; for the descending stable sort we
use the negated timestamp.  Comparing a `None` date raises `TypeError`, so
this key is only meaningful when the date is present. -/
def negDateKey (tf : TestResultFile) : Int := -(tf.date.getD 0)

/-- Line 252, `sorted(..., key=lambda x: x.date, reverse=True)`: for two or
more files every element takes part in at least one comparison, so any
`None` date raises `TypeError` (modelled as `none`); a list of at most one
element is returned unchanged without comparisons. -/
def sortSeries (l : List TestResultFile) : Option (List TestResultFile) :=
  if l.all (fun tf => tf.date.isSome) then some (pySortBy negDateKey l)
  else if l.length ≤ 1 then some l
  else none

/-! ## The name universes (lines 254-265) -/

/-- `set.add`: insertion-ordered de-duplicating add (the order stands in
for CPython's unspecified set iteration order; every theorem below is
insensitive to it). -/
def setAdd (acc : List String) (a : String) : List String :=
  if acc.contains a then acc else acc ++ [a]

/-- `set.update(names)`. -/
def addAll (acc : List String) (names : List String) : List String :=
  names.foldl setAdd acc

/-- `wheel_name_set` (lines 255, 259): union of every file's wheel keys. -/
def wheelUnion (series : List TestResultFile) : List String :=
  series.foldl (fun acc tf => addAll acc (tf.content.map Prod.fst)) []

/-- `all_test_names` (lines 257, 260-263): union of all test names, with
names in `ignore_tests` excluded. -/
def testUnion (series : List TestResultFile) (ignoreTests : List String) : List String :=
  series.foldl
    (fun acc tf =>
      tf.content.foldl
        (fun acc2 w => addAll acc2 (((w.2.map Prod.fst)).filter (fun tn => !ignoreTests.contains tn)))
        acc)
    []

/-- ASCII lowercasing of one character (`str.lower` on the ASCII package
names at hand). -/
def lowerChar (c : Char) : Char :=
  if 'A' ≤ c ∧ c ≤ 'Z' then Char.ofNat (c.toNat + 32) else c

/-- `str.lower` of a package name. -/
def strLower (s : String) : String := String.mk (s.data.map lowerChar)

/-- Line 264: `sorted(list(wheel_name_set), key=str.lower)`. -/
def sortedWheelNames (series : List TestResultFile) : List String :=
  pySortBy strLower (wheelUnion series)

/-- Line 265: `sorted(list(all_test_names))`. -/
def sortedTestNames (series : List TestResultFile) (ignoreTests : List String) : List String :=
  pySortBy (fun t => t) (testUnion series ignoreTests)

/-! ## Failing-test aggregation (lines 34-45) -/

/-- `get_wheels_with_result`: the set of wheel names (skipping those in
`ignore_tests`) that have some test with `d[key] == result`. -/
def getWheelsWithResult (content : Content) (key : String) (result : Bool)
    (ignoreTests : List String) : List String :=
  content.foldl
    (fun acc w =>
      if ignoreTests.contains w.1 then acc
      else if w.2.any (fun t => (t.2.lookup key).getD PyVal.none == PyVal.bool result) then
        setAdd acc w.1
      else acc)
    []

/-- `get_failing_tests`: wheels with some test whose `test-passed` equals
`False`. -/
def getFailingTests (content : Content) (ignoreTests : List String) : List String :=
  getWheelsWithResult content "test-passed" false ignoreTests

/-! ## Summary comparator (lines 273-311) -/

/-- Lines 275-279: the reference date.  `replace(hour=23, minute=59)` keeps
the seconds; the weekday subtracted is the replaced date's (same calendar
day as the current date), and the extra week is subtracted when the current
date's weekday is on-or-before `compare_weekday_num`. -/
def referenceDate (d : Int) (wd : Int) : Int :=
  let r := dtReplace2359 d
  let r2 := r - 86400 * dtWeekday r + 86400 * wd
  if dtWeekday d ≤ wd then r2 - 604800 else r2

/-- Lines 281-285: first file in the (descending) series whose date is
strictly before the reference date.  Comparing a `None` date would raise;
the predicate is only exercised on parsed dates. -/
def findReferenceFile (series : List TestResultFile) (refDate : Int) :
    Option TestResultFile :=
  series.find? (fun tf => decide ((tf.date.getD 0) < refDate))

def summaryLabels : List String :=
  ["date", "number of wheels", "all tests passed", "some tests failed",
   "each dist has passing option"]

/-- Line 299: one summary column.  Note line 297 calls
`get_failing_tests(tf.content)` with the default (empty) ignore list. -/
def summaryColumn (tf : TestResultFile) : List PyVal :=
  [PyVal.str (strftimeFull (tf.date.getD 0)),
   PyVal.int tf.content.length,
   PyVal.int (tf.content.length - (getFailingTests tf.content []).length),
   PyVal.int (getFailingTests tf.content []).length,
   PyVal.int ((tf.wheelFlags.filter (fun p => p.2)).length)]

/-- The signed delta rendering `f"+{d}" if d >= 0 else str(d)`. -/
def signedStr (d : Int) : String :=
  if 0 ≤ d then "+" ++ toString d else toString d

/-- Integer value of a summary cell (cells subtracted are always ints). -/
def pvInt : PyVal → Int
  | .int n => n
  | _ => 0

/-- Lines 273-311: the summary rows.  `None` for `compare_weekday_num`
skips the block entirely; the empty-series case cannot arise (the CLI
requires at least one result file — Python would raise IndexError). -/
def buildSummary (series : List TestResultFile) (wdOpt : Option Int) :
    List (String × List PyVal × Option String) :=
  match wdOpt, series with
  | none, _ => []
  | some _, [] => []
  | some wd, cur :: rest =>
    let refDate := referenceDate (cur.date.getD 0) wd
    let files :=
      match findReferenceFile (cur :: rest) refDate with
      | some rf => [rf, cur]
      | none => [cur]
    let cols := files.map summaryColumn
    let hasRef := cols.length == 2
    summaryLabels.enum.map (fun li =>
      let values := cols.map (fun c => c.getD li.1 PyVal.none)
      let diff : Option String :=
        if li.2 == "date" then none
        else if hasRef then
          some (signedStr (pvInt ((values.getLast?).getD PyVal.none) -
                           pvInt ((values.head?).getD PyVal.none)))
        else some "N/A"
      (li.2, values, diff))

/-! ## Historical lookup (`date_of_last_passing`, lines 313-325) -/

/-- One probe of the `try` body: the special key reads the derived flag
from `self.wheels`, any other key reads
`tf.content[wheel][test_name]['test-passed']`; a `KeyError` anywhere in the
chain yields `none` (the `except KeyError: continue`). -/
def lookupPassed (tf : TestResultFile) (wheel test_name : String) : Option Bool :=
  if test_name == "each-distribution-has-passing-option" then
    tf.wheelFlags.lookup wheel
  else
    (tf.content.lookup wheel).bind fun wd =>
      (wd.lookup test_name).bind fun o =>
        (o.lookup "test-passed").map pvTruthy

/-- The scan body: first file with a truthy lookup wins and its date is
returned (the source wraps it in a rendered `last passed on …` string and
returns the empty string when the scan is exhausted; we return the date
itself and `none`). -/
def dateOfLastPassingFrom (wheel test_name : String) :
    List TestResultFile → Option Int
  | [] => none
  | tf :: rest =>
    match lookupPassed tf wheel test_name with
    | some true => tf.date
    | _ => dateOfLastPassingFrom wheel test_name rest

/-- `date_of_last_passing`: the scan runs over `test_results_list[1:]`,
never the current snapshot at index 0. -/
def date_of_last_passing (series : List TestResultFile) (wheel test_name : String) :
    Option Int :=
  dateOfLastPassingFrom wheel test_name (series.drop 1)

/-! ## Popularity ranking (`get_wheel_ranks`, lines 215-231) -/

/-- One element of the ranking payload's `rows` array; `none` fields model
missing keys. -/
structure RankRow where
  project : Option String
  download_count : Option Int
  deriving DecidableEq, Repr

/-- What the HTTP request did: raised a network error, returned a body that
is not JSON, or returned JSON (with or without a `rows` key). -/
inductive FetchOutcome where
  | raisesNetError : FetchOutcome
  | notJson : FetchOutcome
  | json : Option (List RankRow) → FetchOutcome
  deriving DecidableEq, Repr

/-- The exception classes the `requests` package actually exports.
`RequestsError` — the name written at line 219 — is not among them. -/
def requestsExceptionNames : List String :=
  ["RequestException", "ConnectionError", "HTTPError", "URLRequired",
   "TooManyRedirects", "ConnectTimeout", "ReadTimeout", "Timeout",
   "JSONDecodeError", "InvalidURL", "InvalidHeader", "ChunkedEncodingError",
   "ContentDecodingError", "StreamConsumedError", "RetryError",
   "UnrewindableBodyError", "SSLError", "ProxyError", "MissingSchema",
   "InvalidSchema"]

/-- `get_wheel_ranks` (lines 215-231).  When `requests.get` raises, Python
evaluates the `except requests.RequestsError:` clause: looking up that
attribute fails, so an `AttributeError` replaces the handler and
propagates.  A non-JSON body raises `JSONDecodeError` inside the second
`try`, which only catches `KeyError`.  A JSON body without `rows`, or rows
missing `download_count`/`project`, raises `KeyError`, which is caught and
yields the empty list. -/
def get_wheel_ranks (f : FetchOutcome) : Except PyErr (List String) :=
  match f with
  | .raisesNetError =>
    if requestsExceptionNames.contains "RequestsError" then .ok []
    else .error .attributeError
  | .notJson => .error .jsonDecodeError
  | .json none => .ok []
  | .json (some rows) =>
    if rows.all (fun r => r.download_count.isSome) then
      let sortedRows := pySortBy (fun r => -((r.download_count).getD 0)) rows
      if sortedRows.all (fun r => r.project.isSome) then
        .ok (sortedRows.map (fun r => (r.project).getD ""))
      else .ok []
    else .ok []

/-! ## Rank width (lines 267-270) -/

/-- `numDigits10Aux fuel n` computes the decimal digit count of `n` (for
`n ≥ 1` and enough fuel). -/
def numDigits10Aux : Nat → Nat → Nat
  | 0, _ => 0
  | fuel + 1, n => if n < 10 then 1 else numDigits10Aux fuel (n / 10) + 1

/-- `floor(log10 n) + 1` for `n ≥ 1` — exactly the decimal digit count.
(For the list lengths at hand, `math.log10` on a float is exact enough
that `math.floor` of it gives the digit count minus one.) -/
def numDigits10 (n : Nat) : Nat := numDigits10Aux n n

/-- Line 269: `math.floor(math.log10(len(wheel_ranks))) + 1`.  On the empty
list `math.log10(0)` raises `ValueError: math domain error`; the source
has no guard. -/
def leadingZeros (wheelRanks : List String) : Except PyErr Int :=
  if wheelRanks.length = 0 then .error .valueError
  else .ok (Int.ofNat (numDigits10 wheelRanks.length))

/-! ## Concrete scenario data -/

/-- Content of the 2024-01-01 snapshot of the spec's scenario:
`pkgA: {jammy-pip: passed=true}`. -/
def contentJan1 : Content :=
  [("pkgA", [("jammy-pip", [("test-passed", PyVal.bool true)])])]

/-- Content of the 2024-01-08 snapshot: `pkgA: {jammy-pip: passed=false}`. -/
def contentJan8 : Content :=
  [("pkgA", [("jammy-pip", [("test-passed", PyVal.bool false)])])]

/-- Fallback file used only to make the `loadOne` pattern matches total;
never reached on the scenario inputs. -/
def emptyTRF : TestResultFile :=
  { fname := "", content := [], date := none, wheelFlags := [] }

/-- The 2024-01-01 snapshot, loaded through the pipeline. -/
def snapJan1 : TestResultFile :=
  match loadOne ("wheel-test-2024-01-01_00-00-00.json", contentJan1) with
  | .ok tf => tf
  | .error _ => emptyTRF

/-- The 2024-01-08 snapshot, loaded through the pipeline. -/
def snapJan8 : TestResultFile :=
  match loadOne ("wheel-test-2024-01-08_00-00-00.json", contentJan8) with
  | .ok tf => tf
  | .error _ => emptyTRF

/-- Seconds since epoch of 2024-01-01 00:00:00. -/
def tJan1 : Int := 19723 * 86400

/-- Seconds since epoch of 2024-01-08 00:00:00. -/
def tJan8 : Int := 19730 * 86400

/-- Snapshot whose only wheel `pkgB` fails its single test; used to check
what `--ignore pkgB` does and does not exclude. -/
def contentPkgB : Content :=
  [("pkgB", [("jammy-pip", [("test-passed", PyVal.bool false)])])]

/-- The `pkgB` snapshot, loaded through the pipeline. -/
def snapPkgB : TestResultFile :=
  match loadOne ("wheel-test-2024-01-08_00-00-00.json", contentPkgB) with
  | .ok tf => tf
  | .error _ => emptyTRF

/-! ## Helper lemmas -/

theorem pyInsert_perm {α K : Type} [LinearOrder K] (key : α → K) (x : α) :
    ∀ l : List α, List.Perm (pyInsert key x l) (x :: l)
  | [] => List.Perm.refl _
  | y :: ys => by
    simp only [pyInsert]
    split
    · exact List.Perm.refl _
    · exact ((pyInsert_perm key x ys).cons y).trans (List.Perm.swap x y ys)

theorem pySortBy_perm {α K : Type} [LinearOrder K] (key : α → K) :
    ∀ l : List α, List.Perm (pySortBy key l) l
  | [] => List.Perm.refl _
  | x :: xs =>
    (pyInsert_perm key x (pySortBy key xs)).trans ((pySortBy_perm key xs).cons x)

theorem pyInsert_pairwise {α K : Type} [LinearOrder K] (key : α → K) (x : α) :
    ∀ {l : List α}, l.Pairwise (fun a b => key a ≤ key b) →
      (pyInsert key x l).Pairwise (fun a b => key a ≤ key b)
  | [], _ => by simp [pyInsert]
  | y :: ys, h => by
    rcases List.pairwise_cons.mp h with ⟨hy, hys⟩
    simp only [pyInsert]
    split
    · rename_i hxy
      refine List.pairwise_cons.mpr ⟨?_, h⟩
      intro b hb
      rcases List.mem_cons.mp hb with rfl | hb
      · exact hxy
      · exact le_trans hxy (hy b hb)
    · rename_i hxy
      refine List.pairwise_cons.mpr ⟨?_, pyInsert_pairwise key x hys⟩
      intro b hb
      have hb' := (pyInsert_perm key x ys).mem_iff.mp hb
      rcases List.mem_cons.mp hb' with rfl | hb'
      · exact le_of_not_le hxy
      · exact hy b hb'

theorem pySortBy_pairwise {α K : Type} [LinearOrder K] (key : α → K) :
    ∀ l : List α, (pySortBy key l).Pairwise (fun a b => key a ≤ key b)
  | [] => List.Pairwise.nil
  | x :: xs => pyInsert_pairwise key x (pySortBy_pairwise key xs)

/-- Two permuted lists that are both strictly sorted by a key are equal. -/
theorem eq_of_perm_of_pairwise_lt {α K : Type} [LinearOrder K] (key : α → K)
    {l₁ l₂ : List α} (p : List.Perm l₁ l₂)
    (h₁ : l₁.Pairwise (fun a b => key a < key b))
    (h₂ : l₂.Pairwise (fun a b => key a < key b)) : l₁ = l₂ := by
  haveI : IsAntisymm α (fun a b => key a < key b) :=
    ⟨fun a b hab hba => absurd hba (lt_asymm hab)⟩
  exact List.eq_of_perm_of_sorted p h₁ h₂

theorem mem_setAdd {acc : List String} {a b : String} :
    b ∈ setAdd acc a ↔ b ∈ acc ∨ b = a := by
  simp only [setAdd]
  split
  · rename_i h
    have ha : a ∈ acc := by simpa using h
    constructor
    · exact Or.inl
    · rintro (hb | rfl)
      · exact hb
      · exact ha
  · simp [List.mem_append]

theorem nodup_setAdd {acc : List String} {a : String} (h : acc.Nodup) :
    (setAdd acc a).Nodup := by
  simp only [setAdd]
  split
  · exact h
  · rename_i hc
    have : a ∉ acc := by simpa using hc
    simp [List.nodup_append, h, this]

theorem mem_addAll :
    ∀ (names acc : List String) (b : String),
      b ∈ addAll acc names ↔ b ∈ acc ∨ b ∈ names
  | [], acc, b => by simp [addAll]
  | n :: ns, acc, b => by
    show b ∈ addAll (setAdd acc n) ns ↔ _
    rw [mem_addAll ns (setAdd acc n) b, mem_setAdd]
    simp [or_assoc]

theorem nodup_addAll :
    ∀ (names acc : List String), acc.Nodup → (addAll acc names).Nodup
  | [], _, h => h
  | n :: ns, acc, h => nodup_addAll ns (setAdd acc n) (nodup_setAdd h)

theorem mem_foldl_addAll {β : Type} (f : β → List String) :
    ∀ (l : List β) (acc : List String) (b : String),
      b ∈ l.foldl (fun a x => addAll a (f x)) acc ↔ b ∈ acc ∨ ∃ x ∈ l, b ∈ f x
  | [], acc, b => by simp
  | y :: ys, acc, b => by
    rw [List.foldl_cons, mem_foldl_addAll f ys (addAll acc (f y)) b,
      mem_addAll]
    simp only [List.mem_cons, or_assoc]
    constructor
    · rintro (h | h | ⟨x, hx, hbx⟩)
      · exact Or.inl h
      · exact Or.inr ⟨y, Or.inl rfl, h⟩
      · exact Or.inr ⟨x, Or.inr hx, hbx⟩
    · rintro (h | ⟨x, rfl | hx, hbx⟩)
      · exact Or.inl h
      · exact Or.inr (Or.inl hbx)
      · exact Or.inr (Or.inr ⟨x, hx, hbx⟩)

theorem nodup_foldl_addAll {β : Type} (f : β → List String) :
    ∀ (l : List β) (acc : List String), acc.Nodup →
      (l.foldl (fun a x => addAll a (f x)) acc).Nodup
  | [], _, h => h
  | y :: ys, acc, h =>
    nodup_foldl_addAll f ys (addAll acc (f y)) (nodup_addAll (f y) acc h)

theorem mem_wheelUnion {series : List TestResultFile} {b : String} :
    b ∈ wheelUnion series ↔ ∃ tf ∈ series, b ∈ tf.content.map Prod.fst := by
  rw [wheelUnion, mem_foldl_addAll]
  simp

theorem nodup_wheelUnion (series : List TestResultFile) :
    (wheelUnion series).Nodup :=
  nodup_foldl_addAll _ series [] List.nodup_nil

theorem foldl_addAll_flatMap {γ : Type} (g : γ → List String) :
    ∀ (c : List γ) (acc : List String),
      c.foldl (fun a x => addAll a (g x)) acc = addAll acc (c.flatMap g)
  | [], acc => by simp [addAll]
  | x :: xs, acc => by
    rw [List.foldl_cons, foldl_addAll_flatMap g xs (addAll acc (g x)),
      List.flatMap_cons]
    show _ = (g x ++ xs.flatMap g).foldl setAdd acc
    rw [List.foldl_append]
    rfl

/-- `testUnion` as a single flat fold. -/
theorem testUnion_eq (series : List TestResultFile) (ignoreTests : List String) :
    testUnion series ignoreTests =
      series.foldl
        (fun acc tf =>
          addAll acc
            (tf.content.flatMap
              (fun w => (w.2.map Prod.fst).filter (fun tn => !ignoreTests.contains tn))))
        [] := by
  rw [testUnion]
  congr 1
  funext acc tf
  exact foldl_addAll_flatMap _ tf.content acc

theorem mem_testUnion {series : List TestResultFile} {ignoreTests : List String}
    {b : String} :
    b ∈ testUnion series ignoreTests ↔
      ∃ tf ∈ series, ∃ w ∈ tf.content, b ∈ w.2.map Prod.fst ∧
        ignoreTests.contains b = false := by
  rw [testUnion_eq, mem_foldl_addAll]
  simp only [List.not_mem_nil, false_or]
  constructor
  · rintro ⟨tf, htf, hflat⟩
    rw [List.mem_flatMap] at hflat
    obtain ⟨w, hw, hmem⟩ := hflat
    rw [List.mem_filter] at hmem
    exact ⟨tf, htf, w, hw, hmem.1, by simpa using hmem.2⟩
  · rintro ⟨tf, htf, w, hw, hb, hig⟩
    refine ⟨tf, htf, ?_⟩
    rw [List.mem_flatMap]
    exact ⟨w, hw, List.mem_filter.mpr ⟨hb, by simpa using hig⟩⟩

theorem nodup_testUnion (series : List TestResultFile) (ignoreTests : List String) :
    (testUnion series ignoreTests).Nodup := by
  rw [testUnion_eq]
  exact nodup_foldl_addAll _ series [] List.nodup_nil

/-- `find?` characterised as a first match: the list splits at the found
element and everything before it fails the predicate. -/
theorem find?_split {α : Type} (p : α → Bool) :
    ∀ {l : List α} {a : α}, l.find? p = some a →
      ∃ l₁ l₂, l = l₁ ++ a :: l₂ ∧ p a = true ∧ ∀ x ∈ l₁, p x = false
  | [], a, h => by simp [List.find?] at h
  | y :: ys, a, h => by
    by_cases hy : p y
    · rw [List.find?_cons_of_pos _ hy, Option.some_inj] at h
      subst h
      exact ⟨[], ys, rfl, hy, by simp⟩
    · rw [List.find?_cons_of_neg _ hy] at h
      obtain ⟨l₁, l₂, rfl, hpa, hall⟩ := find?_split p h
      refine ⟨y :: l₁, l₂, rfl, hpa, ?_⟩
      intro x hx
      rcases List.mem_cons.mp hx with rfl | hx
      · exact Bool.not_eq_true _ ▸ (by simpa using hy)
      · exact hall x hx

theorem lookup_dictSet_self (l : List (String × PyVal)) (k : String) (v : PyVal) :
    (dictSet l k v).lookup k = some v := by
  induction l with
  | nil => simp [dictSet, List.lookup]
  | cons p rest ih =>
    obtain ⟨k', v'⟩ := p
    simp only [dictSet, beq_iff_eq]
    split
    · rename_i h
      subst h
      simp [List.lookup]
    · rename_i h
      have hbe : (k == k') = false := beq_false_of_ne (fun he => h he.symm)
      simp [List.lookup, hbe, ih]

theorem lookup_dictSet_ne (l : List (String × PyVal)) (k k' : String) (v : PyVal)
    (hne : k' ≠ k) : (dictSet l k v).lookup k' = l.lookup k' := by
  induction l with
  | nil => simp [dictSet, List.lookup, beq_false_of_ne hne]
  | cons p rest ih =>
    obtain ⟨k₀, v₀⟩ := p
    simp only [dictSet, beq_iff_eq]
    split
    · rename_i h
      subst h
      simp [List.lookup, beq_false_of_ne hne]
    · simp only [List.lookup]
      cases hbe : (k' == k₀) <;> simp [hbe, ih]

/-- `subAt` decides list-prefix. -/
theorem subAt_iff : ∀ (n h : List Char), subAt n h = true ↔ n <+: h
  | [], h => by simp [subAt]
  | a :: as, [] => by
    simp only [subAt, Bool.false_eq_true, false_iff]
    intro hcon
    exact absurd (List.IsPrefix.length_le hcon) (by simp)
  | a :: as, b :: bs => by
    simp [subAt, subAt_iff as bs, List.cons_prefix_cons]

/-- `hasSub` decides list-infix. -/
theorem hasSub_iff : ∀ (n h : List Char), hasSub n h = true ↔ n <:+: h
  | n, [] => by
    simp only [hasSub, List.isEmpty_iff, List.infix_nil]
  | n, c :: cs => by
    simp only [hasSub, Bool.or_eq_true, subAt_iff, hasSub_iff n cs,
      List.infix_cons_iff]

/-- Python's `in` respects substring transitivity. -/
theorem strIn_trans {a b c : String} (hab : strIn a b = true)
    (hbc : strIn b c = true) : strIn a c = true := by
  rw [strIn, hasSub_iff] at *
  exact hab.trans hbc

/-- A successful `date_of_last_passing` scan stops at the first file whose
lookup is truthy, and returns that file's date. -/
theorem dateOfLastPassingFrom_eq_some {wheel test_name : String} :
    ∀ {l : List TestResultFile} {d : Int},
      dateOfLastPassingFrom wheel test_name l = some d →
      ∃ l₁ tf l₂, l = l₁ ++ tf :: l₂ ∧ lookupPassed tf wheel test_name = some true ∧
        tf.date = some d ∧ ∀ x ∈ l₁, lookupPassed x wheel test_name ≠ some true
  | [], d, h => by simp [dateOfLastPassingFrom] at h
  | tf :: rest, d, h => by
    rcases hlk : lookupPassed tf wheel test_name with _ | b
    · have h' : dateOfLastPassingFrom wheel test_name rest = some d := by
        rw [dateOfLastPassingFrom, hlk] at h
        exact h
      obtain ⟨l₁, tf', l₂, rfl, hp', hd', hall⟩ := dateOfLastPassingFrom_eq_some h'
      refine ⟨tf :: l₁, tf', l₂, rfl, hp', hd', ?_⟩
      intro x hx
      rcases List.mem_cons.mp hx with rfl | hx
      · simp [hlk]
      · exact hall x hx
    · cases b with
      | false =>
        have h' : dateOfLastPassingFrom wheel test_name rest = some d := by
          rw [dateOfLastPassingFrom, hlk] at h
          exact h
        obtain ⟨l₁, tf', l₂, rfl, hp', hd', hall⟩ := dateOfLastPassingFrom_eq_some h'
        refine ⟨tf :: l₁, tf', l₂, rfl, hp', hd', ?_⟩
        intro x hx
        rcases List.mem_cons.mp hx with rfl | hx
        · simp [hlk]
        · exact hall x hx
      | true =>
        have hd : tf.date = some d := by
          rw [dateOfLastPassingFrom, hlk] at h
          exact h
        exact ⟨[], tf, rest, rfl, hlk, hd, by simp⟩

/-- When every scanned file has a parsed date, an empty scan result means
no scanned file has a truthy lookup. -/
theorem dateOfLastPassingFrom_eq_none {wheel test_name : String} :
    ∀ {l : List TestResultFile},
      (∀ tf ∈ l, tf.date.isSome) →
      dateOfLastPassingFrom wheel test_name l = none →
      ∀ tf ∈ l, lookupPassed tf wheel test_name ≠ some true
  | [], _, _ => by simp
  | tf :: rest, hdates, h => by
    rcases hlk : lookupPassed tf wheel test_name with _ | b
    · have h' : dateOfLastPassingFrom wheel test_name rest = none := by
        rw [dateOfLastPassingFrom, hlk] at h
        exact h
      intro tf' htf'
      rcases List.mem_cons.mp htf' with rfl | htf'
      · simp [hlk]
      · exact dateOfLastPassingFrom_eq_none
          (fun x hx => hdates x (List.mem_cons_of_mem _ hx)) h' tf' htf'
    · cases b with
      | false =>
        have h' : dateOfLastPassingFrom wheel test_name rest = none := by
          rw [dateOfLastPassingFrom, hlk] at h
          exact h
        intro tf' htf'
        rcases List.mem_cons.mp htf' with rfl | htf'
        · simp [hlk]
        · exact dateOfLastPassingFrom_eq_none
            (fun x hx => hdates x (List.mem_cons_of_mem _ hx)) h' tf' htf'
      | true =>
        have hd : tf.date = none := by
          rw [dateOfLastPassingFrom, hlk] at h
          exact h
        have := hdates tf (List.mem_cons_self _ _)
        rw [hd] at this
        simp at this

/-! ## Claim theorems -/

/-- C4: for every wheel dict, the derived `each-distribution-has-passing-option`
flag is true iff the per-distribution OR-fold contains no false entry, and a
wheel with no outcomes at all folds to the empty map and vacuously gets the
flag. -/
theorem generateReport_c4 :
    (∀ wd : WheelDict,
        eachDistributionHasPassingOption wd = true ↔
          ∀ p ∈ passedByDistro wd, p.2 = true) ∧
    passedByDistro [] = [] ∧ eachDistributionHasPassingOption [] = true := by
  refine ⟨?_, rfl, rfl⟩
  intro wd
  rw [eachDistributionHasPassingOption, beq_iff_eq, List.length_eq_zero,
    List.filter_eq_nil_iff]
  constructor
  · intro h p hp
    simpa using h p hp
  · intro h p hp
    simp [h p hp]

/-- Witness for C4 at a concrete wheel dict. -/
theorem generateReport_c4_witness :
    eachDistributionHasPassingOption
      [("jammy-pip", [("test-passed", PyVal.bool true)])] = true :=
  (generateReport_c4.1 _).mpr (by decide)

/-- C10: distribution inference returns the first entry of the fixed list
found as a substring (so any name containing `amazon-linux2023` maps to
`amazon-linux2`, and `amazon-linux2023`/`resolute` are never returned), and
package-manager inference returns the first of yum/apt/conda found, else
`pip`. -/
theorem generateReport_c10 :
    (∀ t, strIn "amazon-linux2023" t = true →
        get_distribution_name t = some "amazon-linux2") ∧
    (∀ t r, get_distribution_name t = some r →
        strIn r t = true ∧ r ∈ distros ∧
        ∃ l₁ l₂, distros = l₁ ++ r :: l₂ ∧ ∀ d ∈ l₁, strIn d t = false) ∧
    ("amazon-linux2023" ∉ distros ∧ "resolute" ∉ distros) ∧
    (∀ t, get_distribution_name t = none ↔ ∀ d ∈ distros, strIn d t = false) ∧
    (∀ t, strIn "yum" t = true → get_package_manager_name t = "yum") ∧
    (∀ t, strIn "yum" t = false → strIn "apt" t = true →
        get_package_manager_name t = "apt") ∧
    (∀ t, strIn "yum" t = false → strIn "apt" t = false → strIn "conda" t = true →
        get_package_manager_name t = "conda") ∧
    (∀ t, strIn "yum" t = false → strIn "apt" t = false → strIn "conda" t = false →
        get_package_manager_name t = "pip") := by
  refine ⟨?_, ?_, by decide, ?_, ?_, ?_, ?_, ?_⟩
  · intro t h
    have h2 : strIn "amazon-linux2" t = true :=
      strIn_trans (by decide) h
    show List.find? (fun d => strIn d t) distros = some "amazon-linux2"
    exact List.find?_cons_of_pos _ h2
  · intro t r h
    rw [get_distribution_name] at h
    refine ⟨by simpa using List.find?_some h, List.mem_of_find?_eq_some h, ?_⟩
    obtain ⟨l₁, l₂, heq, _, hall⟩ := find?_split _ h
    exact ⟨l₁, l₂, heq, hall⟩
  · intro t
    rw [get_distribution_name, List.find?_eq_none]
    constructor
    · intro h d hd
      simpa using h d hd
    · intro h d hd
      simp [h d hd]
  · intro t hy
    simp [get_package_manager_name, List.find?, hy]
  · intro t hy ha
    simp [get_package_manager_name, List.find?, hy, ha]
  · intro t hy ha hc
    simp [get_package_manager_name, List.find?, hy, ha, hc]
  · intro t hy ha hc
    simp [get_package_manager_name, List.find?, hy, ha, hc]

/-- Witness for C10: a test name containing `amazon-linux2023` is assigned
the distribution `amazon-linux2`. -/
theorem generateReport_c10_witness :
    get_distribution_name "test-amazon-linux2023-pip" = some "amazon-linux2" :=
  generateReport_c10.1 "test-amazon-linux2023-pip" (by decide)

/-- C9 counterexample: metadata inference adds keys to the parsed outcome
dict — after `add_inferred_meta_data` the outcome for `pkgA/jammy-pip`
carries `distribution` and `package_manager`, so the parsed mappings are
not left unmodified. -/
theorem generateReport_c9_counterexample :
    (addMetaToOutcome "jammy-pip" [("test-passed", PyVal.bool true)]).map Prod.fst =
      ["test-passed", "distribution", "package_manager"] ∧
    addInferredContent contentJan1 ≠ contentJan1 := by
  exact ⟨rfl, by decide⟩

/-- C9 amended: metadata inference writes exactly the two derived keys
`distribution` and `package_manager` into each per-test outcome dict and
leaves the value of every other key unchanged. -/
theorem generateReport_c9_amended :
    ∀ (tn : String) (o : Outcome),
      (addMetaToOutcome tn o).lookup "package_manager" =
          some (PyVal.str (get_package_manager_name tn)) ∧
      (addMetaToOutcome tn o).lookup "distribution" =
          some (match get_distribution_name tn with
                | some d => PyVal.str d
                | none => PyVal.none) ∧
      ∀ k, k ≠ "distribution" → k ≠ "package_manager" →
        (addMetaToOutcome tn o).lookup k = o.lookup k := by
  intro tn o
  refine ⟨lookup_dictSet_self _ _ _, ?_, ?_⟩
  · rw [addMetaToOutcome, lookup_dictSet_ne _ _ _ _ (by decide),
      lookup_dictSet_self]
  · intro k h1 h2
    rw [addMetaToOutcome, lookup_dictSet_ne _ _ _ _ h2, lookup_dictSet_ne _ _ _ _ h1]

/-- Witness for C9 amended: the pre-existing `test-passed` field is
untouched. -/
theorem generateReport_c9_amended_witness :
    (addMetaToOutcome "jammy-pip" [("test-passed", PyVal.bool true)]).lookup
      "test-passed" = some (PyVal.bool true) :=
  ((generateReport_c9_amended "jammy-pip"
      [("test-passed", PyVal.bool true)]).2.2 "test-passed"
    (by decide) (by decide)).trans rfl

/-- C2: the width formula gives 3 digits for 100 entries and 1 digit for a
single entry, but on the empty ranklist the source computes
`math.log10(0)`, which raises `ValueError` — nothing short-circuits it, so
the claimed no-exception degradation does not happen. -/
theorem generateReport_c2_code_bug :
    leadingZeros [] = Except.error PyErr.valueError ∧
    leadingZeros (List.replicate 100 "pkg") = Except.ok 3 ∧
    leadingZeros ["pkg"] = Except.ok 1 := by
  refine ⟨rfl, rfl, rfl⟩

/-- C6: a network error makes the handler itself fail — the source's
`except requests.RequestsError` names an attribute the `requests` package
does not export, so Python raises `AttributeError` instead of returning
the empty list; a non-JSON body likewise escapes the `except KeyError`
handler.  Only the missing-key failures degrade to the empty list. -/
theorem generateReport_c6_code_bug :
    get_wheel_ranks FetchOutcome.raisesNetError =
      Except.error PyErr.attributeError ∧
    get_wheel_ranks FetchOutcome.notJson = Except.error PyErr.jsonDecodeError ∧
    get_wheel_ranks (FetchOutcome.json none) = Except.ok [] ∧
    get_wheel_ranks (FetchOutcome.json (some
      [⟨some "b", some 2⟩, ⟨some "a", some 5⟩])) = Except.ok ["a", "b"] := by
  refine ⟨rfl, rfl, rfl, rfl⟩

/-- C5 counterexample: a result file named `results.json` has no parseable
timestamp, yet the batch load succeeds and the snapshot enters the series
with `date = None` — no `MalformedIdentifier`-style failure happens at load
time. -/
theorem generateReport_c5_counterexample :
    loadFiles [("results.json", contentJan1)] =
      Except.ok [{ fname := "results.json", content := addInferredContent contentJan1,
                   date := none, wheelFlags := wheelFlagsOf contentJan1 }] := by
  rfl

/-- C5 amended: a file name the timestamp regex does not match loads
without error, with its date left unset, and the file still enters the
series; the batch only fails later — sorting two or more snapshots when
one date is unset raises `TypeError`. -/
theorem generateReport_c5_amended :
    (∀ (fname : String) (c : Content), searchTs fname = none →
        loadOne (fname, c) =
          Except.ok { fname := fname, content := addInferredContent c,
                      date := none, wheelFlags := wheelFlagsOf c }) ∧
    (∀ series : List TestResultFile, 2 ≤ series.length →
        (∃ tf ∈ series, tf.date = none) → sortSeries series = none) := by
  constructor
  · intro fname c h
    simp [loadOne, h]
  · rintro series hlen ⟨tf, htf, hdate⟩
    have h1 : ¬ (series.all (fun tf => tf.date.isSome) = true) := by
      intro hc
      rw [List.all_eq_true] at hc
      have := hc tf htf
      rw [hdate] at this
      simp at this
    have h2 : ¬ (series.length ≤ 1) := by omega
    simp [sortSeries, h1, h2]

/-- Witness for C5 amended at the concrete malformed name. -/
theorem generateReport_c5_amended_witness :
    loadOne ("results.json", contentJan1) =
      Except.ok { fname := "results.json", content := addInferredContent contentJan1,
                  date := none, wheelFlags := wheelFlagsOf contentJan1 } ∧
    sortSeries [emptyTRF, snapJan1] = none :=
  ⟨generateReport_c5_amended.1 "results.json" contentJan1 rfl,
   generateReport_c5_amended.2 [emptyTRF, snapJan1] (by simp)
     ⟨emptyTRF, by simp, rfl⟩⟩

/-- C1: the last-passing lookup ignores the current snapshot at index 0
entirely, a successful lookup returns the date of the first prior snapshot
whose (possibly derived) lookup is truthy with everything before it not
truthy, an empty lookup means no prior snapshot passes, and the spec's
two-snapshot scenario returns the 2024-01-01 timestamp. -/
theorem generateReport_c1 :
    (∀ (a b : TestResultFile) (rest : List TestResultFile) (w t : String),
        date_of_last_passing (a :: rest) w t = date_of_last_passing (b :: rest) w t) ∧
    (∀ (series : List TestResultFile) (w t : String) (d : Int),
        date_of_last_passing series w t = some d →
        ∃ l₁ tf l₂, series.drop 1 = l₁ ++ tf :: l₂ ∧
          lookupPassed tf w t = some true ∧ tf.date = some d ∧
          ∀ x ∈ l₁, lookupPassed x w t ≠ some true) ∧
    (∀ (series : List TestResultFile) (w t : String),
        (∀ tf ∈ series.drop 1, tf.date.isSome) →
        date_of_last_passing series w t = none →
        ∀ tf ∈ series.drop 1, lookupPassed tf w t ≠ some true) ∧
    date_of_last_passing [snapJan8, snapJan1] "pkgA" "jammy-pip" = some tJan1 := by
  refine ⟨?_, ?_, ?_, ?_⟩
  · intro a b rest w t
    rfl
  · intro series w t d h
    exact dateOfLastPassingFrom_eq_some h
  · intro series w t hd h
    exact dateOfLastPassingFrom_eq_none hd h
  · rfl

/-- Witness for C1 on the scenario series. -/
theorem generateReport_c1_witness :
    ∃ l₁ tf l₂, ([snapJan8, snapJan1] : List TestResultFile).drop 1 = l₁ ++ tf :: l₂ ∧
      lookupPassed tf "pkgA" "jammy-pip" = some true ∧ tf.date = some tJan1 ∧
      ∀ x ∈ l₁, lookupPassed x "pkgA" "jammy-pip" ≠ some true :=
  generateReport_c1.2.1 [snapJan8, snapJan1] "pkgA" "jammy-pip" tJan1 rfl

/-- C3: for an anchor weekday in 0..6 the computed reference date falls on
that weekday and is strictly before the current snapshot's 23:59 stamp
(the extra week is subtracted exactly when the current weekday is
on-or-before the anchor); the reference snapshot is the first of the
series whose date is strictly below the reference date; and when none
exists the summary degrades to one column with every non-date delta
rendered "N/A". -/
theorem generateReport_c3 :
    (∀ (d wd : Int), 0 ≤ wd → wd < 7 →
        dtWeekday (referenceDate d wd) = wd ∧
        referenceDate d wd < dtReplace2359 d) ∧
    (∀ (series : List TestResultFile) (refDate : Int) (rf : TestResultFile),
        findReferenceFile series refDate = some rf →
        ∃ l₁ l₂, series = l₁ ++ rf :: l₂ ∧ (rf.date.getD 0) < refDate ∧
          ∀ x ∈ l₁, ¬ ((x.date.getD 0) < refDate)) ∧
    (∀ (cur : TestResultFile) (rest : List TestResultFile) (wd : Int),
        findReferenceFile (cur :: rest) (referenceDate (cur.date.getD 0) wd) = none →
        ∀ row ∈ buildSummary (cur :: rest) (some wd),
          row.2.1.length = 1 ∧ (row.1 ≠ "date" → row.2.2 = some "N/A")) := by
  refine ⟨?_, ?_, ?_⟩
  · intro d wd h0 h7
    constructor
    · simp only [referenceDate, dtReplace2359, dtWeekday, dtDay]
      split <;> omega
    · simp only [referenceDate, dtReplace2359, dtWeekday, dtDay]
      split <;> omega
  · intro series refDate rf h
    obtain ⟨l₁, l₂, heq, hp, hall⟩ := find?_split _ h
    refine ⟨l₁, l₂, heq, of_decide_eq_true hp, ?_⟩
    intro x hx
    exact of_decide_eq_false (hall x hx)
  · intro cur rest wd h row hrow
    simp only [buildSummary, h, summaryLabels, List.enum, List.enumFrom,
      List.map_cons, List.map_nil, List.mem_cons, List.not_mem_nil, or_false] at hrow
    rcases hrow with rfl | rfl | rfl | rfl | rfl <;>
      exact ⟨by simp, by simp⟩

/-- Witness for C3 on a concrete date and anchor weekday. -/
theorem generateReport_c3_witness :
    dtWeekday (referenceDate tJan8 2) = 2 ∧
    referenceDate tJan8 2 < dtReplace2359 tJan8 :=
  generateReport_c3.1 tJan8 2 (by decide) (by decide)

/-- C7 counterexample: with `--ignore pkgB` and a snapshot whose only
failing wheel is `pkgB`, the ignore list would empty the failing set, yet
the summary's `some tests failed` row still counts 1 — line 297 calls
`get_failing_tests(tf.content)` without the ignore list, so the ignored
name is not excluded from the summary comparator's failing-test count. -/
theorem generateReport_c7_counterexample :
    getFailingTests snapPkgB.content ["pkgB"] = [] ∧
    (buildSummary [snapPkgB] (some 0)).get? 3 =
      some ("some tests failed", [PyVal.int 1], some "N/A") := by
  exact ⟨rfl, rfl⟩

/-- C7 amended: an ignored name is excluded from the rendered test-name
universe, but the summary comparator computes its failing-test count with
an empty ignore list, so ignored packages still contribute there. -/
theorem generateReport_c7_amended :
    (∀ (series : List TestResultFile) (ignoreTests : List String) (t : String),
        t ∈ sortedTestNames series ignoreTests → ignoreTests.contains t = false) ∧
    (∀ tf : TestResultFile,
        (summaryColumn tf).get? 3 =
          some (PyVal.int (getFailingTests tf.content []).length)) := by
  constructor
  · intro series ig t ht
    rw [sortedTestNames] at ht
    have hmem := (pySortBy_perm (fun t => t) (testUnion series ig)).mem_iff.mp ht
    obtain ⟨tf, _, w, _, _, hig⟩ := mem_testUnion.mp hmem
    exact hig
  · intro tf
    rfl

/-- Witness for C7 amended: the test name surviving the exclusion is not in
the ignore list. -/
theorem generateReport_c7_amended_witness :
    (["pkgB"] : List String).contains "jammy-pip" = false :=
  generateReport_c7_amended.1 [snapPkgB] ["pkgB"] "jammy-pip" (by decide)

/-- Sorting by a key that is injective over the list is insensitive to the
input order: any two permuted inputs sort to the same list. -/
theorem pySortBy_eq_of_perm {α K : Type} [LinearOrder K] (key : α → K)
    {l₁ l₂ : List α} (p : List.Perm l₁ l₂)
    (hinj : l₁.Pairwise (fun a b => key a ≠ key b)) :
    pySortBy key l₁ = pySortBy key l₂ := by
  have p₁ := pySortBy_perm key l₁
  have p₂ := pySortBy_perm key l₂
  have pp : List.Perm (pySortBy key l₁) (pySortBy key l₂) :=
    p₁.trans (p.trans p₂.symm)
  have hsymm : ∀ {x y : α}, key x ≠ key y → key y ≠ key x := fun h => h.symm
  have h₁ : (pySortBy key l₁).Pairwise (fun a b => key a ≠ key b) :=
    (p₁.pairwise_iff hsymm).mpr hinj
  have h₂ : (pySortBy key l₂).Pairwise (fun a b => key a ≠ key b) :=
    (p₂.pairwise_iff hsymm).mpr ((p.pairwise_iff hsymm).mp hinj)
  refine eq_of_perm_of_pairwise_lt key pp ?_ ?_
  · exact ((pySortBy_pairwise key l₁).and h₁).imp
      (fun h => lt_of_le_of_ne h.1 h.2)
  · exact ((pySortBy_pairwise key l₂).and h₂).imp
      (fun h => lt_of_le_of_ne h.1 h.2)

/-- C8: with pairwise-distinct timestamps (the spec's series invariant) and
wheel names distinguished by their case-insensitive key, a permutation of
the input files yields the same sorted series, the same case-insensitively
sorted wheel-name list, and the same sorted test-name universe — the
report payload does not depend on input order. -/
theorem generateReport_c8 :
    ∀ (s₁ s₂ : List TestResultFile) (ignoreTests : List String),
      List.Perm s₁ s₂ →
      (∀ tf ∈ s₁, tf.date.isSome) →
      s₁.Pairwise (fun a b => a.date ≠ b.date) →
      (∀ a ∈ wheelUnion s₁, ∀ b ∈ wheelUnion s₁, strLower a = strLower b → a = b) →
      sortSeries s₁ = sortSeries s₂ ∧
      sortedWheelNames s₁ = sortedWheelNames s₂ ∧
      sortedTestNames s₁ ignoreTests = sortedTestNames s₂ ignoreTests := by
  intro s₁ s₂ ig hperm hsome hdist hlow
  have hsome₂ : ∀ tf ∈ s₂, tf.date.isSome :=
    fun tf htf => hsome tf (hperm.mem_iff.mpr htf)
  have hne : s₁.Pairwise (fun a b => negDateKey a ≠ negDateKey b) := by
    refine hdist.imp_of_mem ?_
    intro a b ha hb hab hcon
    rcases Option.isSome_iff_exists.mp (hsome a ha) with ⟨x, hx⟩
    rcases Option.isSome_iff_exists.mp (hsome b hb) with ⟨y, hy⟩
    apply hab
    rw [hx, hy]
    simp only [negDateKey, hx, hy, Option.getD_some, neg_inj] at hcon
    rw [hcon]
  refine ⟨?_, ?_, ?_⟩
  · have e₁ : s₁.all (fun tf => tf.date.isSome) = true :=
      List.all_eq_true.mpr hsome
    have e₂ : s₂.all (fun tf => tf.date.isSome) = true :=
      List.all_eq_true.mpr hsome₂
    rw [sortSeries, sortSeries, if_pos e₁, if_pos e₂]
    exact congrArg some (pySortBy_eq_of_perm negDateKey hperm hne)
  · have hmem : ∀ a, a ∈ wheelUnion s₁ ↔ a ∈ wheelUnion s₂ := by
      intro a
      rw [mem_wheelUnion, mem_wheelUnion]
      constructor
      · rintro ⟨tf, htf, h⟩
        exact ⟨tf, hperm.mem_iff.mp htf, h⟩
      · rintro ⟨tf, htf, h⟩
        exact ⟨tf, hperm.mem_iff.mpr htf, h⟩
    have hperm' : List.Perm (wheelUnion s₁) (wheelUnion s₂) :=
      (List.perm_ext_iff_of_nodup (nodup_wheelUnion s₁) (nodup_wheelUnion s₂)).mpr hmem
    have hinj : (wheelUnion s₁).Pairwise (fun a b => strLower a ≠ strLower b) := by
      refine (nodup_wheelUnion s₁).imp_of_mem ?_
      intro a b ha hb hab hcon
      exact hab (hlow a ha b hb hcon)
    exact pySortBy_eq_of_perm strLower hperm' hinj
  · have hmem : ∀ a, a ∈ testUnion s₁ ig ↔ a ∈ testUnion s₂ ig := by
      intro a
      rw [mem_testUnion, mem_testUnion]
      constructor
      · rintro ⟨tf, htf, h⟩
        exact ⟨tf, hperm.mem_iff.mp htf, h⟩
      · rintro ⟨tf, htf, h⟩
        exact ⟨tf, hperm.mem_iff.mpr htf, h⟩
    have hperm' : List.Perm (testUnion s₁ ig) (testUnion s₂ ig) :=
      (List.perm_ext_iff_of_nodup (nodup_testUnion s₁ ig)
        (nodup_testUnion s₂ ig)).mpr hmem
    have hinj : (testUnion s₁ ig).Pairwise
        (fun a b => (fun t => t) a ≠ (fun t => t) b) :=
      (nodup_testUnion s₁ ig).imp (fun h => h)
    exact pySortBy_eq_of_perm (fun t => t) hperm' hinj

/-- Witness for C8: swapping the two scenario files leaves the whole
payload unchanged. -/
theorem generateReport_c8_witness :
    sortSeries [snapJan1, snapJan8] = sortSeries [snapJan8, snapJan1] ∧
    sortedWheelNames [snapJan1, snapJan8] = sortedWheelNames [snapJan8, snapJan1] ∧
    sortedTestNames [snapJan1, snapJan8] [] = sortedTestNames [snapJan8, snapJan1] [] :=
  generateReport_c8 [snapJan1, snapJan8] [snapJan8, snapJan1] []
    (List.Perm.swap _ _ _) (by decide) (by decide) (by decide)

end WheelTester
